import Mathlib

/-!
Verification of the MCTS repository (Naive MCTS and Sarsa-UCT(λ) engines
over a TicTacToe game capability).

The Python sources are embedded shallowly:
  * game states are 3×3 integer grids (`Board`), actions are coordinates;
  * floating point quantities are modelled as rationals;
  * the mutable object graph (tree nodes shared between the transposition
    memory and parents' children collections) is modelled as an explicit
    heap: an association list from node ids to node records, with children
    stored as lists of node ids;
  * Python `dict`s are association lists; `dict.get` is `find?` on the key;
  * code that can raise is modelled in `Except PyErr`.
-/

set_option maxRecDepth 4096

namespace MCTS

/-! ## Game capability: `src/games/tictactoe/TicTacToe.py` -/

/-- A tic-tac-toe action: a (row, column) coordinate, as produced by
`get_all_next_actions` / `RandomTTTPolicy.select_action`. -/
abbrev Act := Nat × Nat

/-- The 3×3 numpy integer grid of `TicTacToeBoard`: cell values are
`1` (X), `0` (O), `-1` (empty).  Modelled as a list of rows. -/
abbrev Board := List (List Int)

/-- `X_MARK_INDICATOR` -/
def X_MARK_INDICATOR : Int := 1
/-- `O_MARK_INDICATOR` -/
def O_MARK_INDICATOR : Int := 0
/-- `NO_MARK_INDICATOR` -/
def NO_MARK_INDICATOR : Int := -1

/-- `TicTacToeBoard.mark_to_indicator`: `X_MARK_INDICATOR if mark == 'X' else O_MARK_INDICATOR`. -/
def markToIndicator (mark : String) : Int :=
  if mark = "X" then X_MARK_INDICATOR else O_MARK_INDICATOR

/-- Reading one cell of the board (out-of-range reads, which the Python code
never performs on its well-formed 3×3 arrays, default to the empty marker). -/
def cellAt (b : Board) (r c : Nat) : Int :=
  ((b[r]?.getD []).get? c).getD NO_MARK_INDICATOR

/-- One line (row / column / diagonal) decides the game exactly when
`np.unique` of the line has a single element that is not `NO_MARK_INDICATOR`,
i.e. all cells are equal and none is empty. -/
def lineWinner (l : List Int) : Option Int :=
  match l with
  | [] => none
  | x :: xs => if xs.all (fun y => y = x) && !(x = NO_MARK_INDICATOR) then some x else none

/-- First decided line of the given list of lines, scanned in order. -/
def firstLineWinner (ls : List (List Int)) : Option Int :=
  ls.findSome? lineWinner

/-- The columns of the board. -/
def boardCols (b : Board) : List (List Int) :=
  (List.range 3).map (fun c => (List.range 3).map (fun r => cellAt b r c))

/-- Top-left to bottom-right diagonal. -/
def boardDiag (b : Board) : List Int := (List.range 3).map (fun i => cellAt b i i)

/-- Bottom-left to top-right diagonal (`np.fliplr(...).diagonal()`). -/
def boardAntiDiag (b : Board) : List Int := (List.range 3).map (fun i => cellAt b i (2 - i))

/-- `TicTacToeBoard.is_terminal_state`: rows are checked first, then columns,
then the two diagonals; a fully marked grid with no winner is a draw, reported
as `(True, -1)`; otherwise `(False, None)`. -/
def isTerminalState (b : Board) : Bool × Option Int :=
  match firstLineWinner b with
  | some w => (true, some w)
  | none =>
    match firstLineWinner (boardCols b) with
    | some w => (true, some w)
    | none =>
      match lineWinner (boardDiag b) with
      | some w => (true, some w)
      | none =>
        match lineWinner (boardAntiDiag b) with
        | some w => (true, some w)
        | none =>
          if (b.flatten).all (fun y => !(y = NO_MARK_INDICATOR)) then (true, some (-1))
          else (false, none)

/-- `TicTacToeBoard.get_all_next_actions`: the coordinates of the empty cells,
in row-major order (`np.where(self.board == NO_MARK_INDICATOR)`). -/
def getAllNextActions (b : Board) : List Act :=
  ((List.range 3).map (fun r =>
    (List.range 3).filterMap (fun c =>
      if cellAt b r c = NO_MARK_INDICATOR then some (r, c) else none))).flatten

/-- Writing one cell of the board. -/
def setCell (b : Board) (a : Act) (v : Int) : Board :=
  b.set a.1 ((b[a.1]?.getD []).set a.2 v)

/-- `TicTacToeBoard.get_next_game_state`: copy the board and place
`mark_to_indicator(mark)` at the action's coordinate. -/
def getNextGameState (b : Board) (action : Act) (mark : String) : Board :=
  setCell b action (markToIndicator mark)

/-- `TicTacToeBoard.get_next_game_states`: one successor per legal action,
paired with the list of those actions. -/
def getNextGameStates (b : Board) (mark : String) : List Board × List Act :=
  let input_actions := getAllNextActions b
  (input_actions.map (fun a => getNextGameState b a mark), input_actions)

/-- Python equality between the integer winner produced by
`is_terminal_state` and a string mark: an `int` never equals a `str` in
Python, so this comparison is constantly false.  (The Sarsa driver
`run_sarsa.py` constructs the agent with string marks `"X"`/`"O"`, while the
winner slot holds numpy integers.) -/
def pyIntEqStr (_w : Int) (_mark : String) : Bool := false

/-- `TicTacToeBoard.get_reward`: `0` off terminal states; on a terminal state
the integer winner is compared with the player's string mark and with the
string `indicator_to_mark(NO_MARK_INDICATOR) = "_"` — both cross-type
comparisons are false in Python, so the terminal reward is `-1`. -/
def getReward (sp : Board) (playerMark : String) : Int :=
  match isTerminalState sp with
  | (false, _) => 0
  | (true, w) =>
    let wv := w.getD (-1)
    if pyIntEqStr wv playerMark then 1
    else if pyIntEqStr wv "_" then 0
    else -1

/-- Mark character used by `TicTacToeBoard.__str__`. -/
def cellMark (v : Int) : String :=
  if v = X_MARK_INDICATOR then "X" else if v = O_MARK_INDICATOR then "O" else "_"

/-- `TicTacToeBoard.__str__`: `np.array2string` of the board with cells
replaced by their mark characters.  (The exact numpy spacing is immaterial:
the string is only used as an injective canonical key.) -/
def prettyBoardStr (b : Board) : String :=
  "[" ++ String.intercalate "\n " (b.map (fun row =>
    "[" ++ String.intercalate " " (row.map (fun v => "." ++ cellMark v ++ ".")) ++ "]")) ++ "]"

/-- `np.array2string` of the raw integer board, the key used by
`NaiveMCTS.pre_step_setup_`.  (Again only key identity matters, not the
exact numpy spacing.) -/
def intBoardStr (b : Board) : String :=
  "[" ++ String.intercalate "\n " (b.map (fun row =>
    "[" ++ String.intercalate " " (row.map (fun v => toString v)) ++ "]")) ++ "]"

/-- `str(x)` for the state slot of a Sarsa episode tuple, which is either a
game object or Python `None` (the synthetic leading tuple). -/
def pyStrOpt : Option Board → String
  | none => "None"
  | some b => prettyBoardStr b

/-- The empty starting board (`get_init_game_state`). -/
def emptyBoard : Board := [[-1, -1, -1], [-1, -1, -1], [-1, -1, -1]]

/-! ## Outcomes and Python-level errors -/

/-- `utils.Outcome`. -/
inductive Outcome where
  | WIN | LOSS | DRAW
  deriving DecidableEq, Repr

/-- The ways embedded code can raise.  `attributeErrorNoneInputAction` is
Python's `AttributeError` from evaluating `None.input_action`;
`noChildrenAvailable` is the clearly named condition §7(c) of the spec asks
for (never raised by this code); `assertionError` is a failed `assert`;
`attributeErrorGameObj` is the `AttributeError` raised when
`ucb1_tree_policy_` receives a raw game object; `indexError` is
`random.choice` on an empty sequence; `keyError` a failed `dict` access;
`recursionLimit` models Python's `RecursionError` for the fuelled loops. -/
inductive PyErr where
  | attributeErrorNoneInputAction
  | noChildrenAvailable
  | assertionError
  | attributeErrorGameObj
  | indexError
  | keyError
  | recursionLimit
  deriving DecidableEq, Repr

/-! ## The node heap

Python tree nodes are mutable objects referenced both from their parents'
children collections and from the transposition memory.  We model the object
store as an association list from node ids to node records; `heapGet`
dereferences, `heapModify` mutates in place, and fresh objects are appended
with id `heap.length` (ids are allocated consecutively). -/

/-- Object store keyed by node id. -/
abbrev Heap (δ : Type) := List (Nat × δ)

/-- Dereference a node id. -/
def heapGet (h : Heap δ) (i : Nat) : Option δ :=
  (h.find? (fun e => e.1 = i)).map (fun e => e.2)

/-- Mutate the node with id `i` in place. -/
def heapModify (h : Heap δ) (i : Nat) (f : δ → δ) : Heap δ :=
  h.map (fun e => if e.1 = i then (e.1, f e.2) else e)

/-- The id a freshly constructed object receives. -/
def heapFresh (h : Heap δ) : Nat := h.length

/-- Allocate a fresh object; returns its id. -/
def heapAlloc (h : Heap δ) (d : δ) : Heap δ × Nat :=
  (h ++ [(heapFresh h, d)], heapFresh h)

theorem heapGet_modify_eq (h : Heap δ) (i : Nat) (f : δ → δ) :
    heapGet (heapModify h i f) i = (heapGet h i).map f := by
  induction h with
  | nil => rfl
  | cons e t ih =>
    by_cases he : e.1 = i
    · simp [heapGet, heapModify, List.find?, he]
    · simpa [heapGet, heapModify, List.find?, he] using ih

theorem heapGet_modify_ne (h : Heap δ) (i j : Nat) (f : δ → δ) (hij : j ≠ i) :
    heapGet (heapModify h i f) j = heapGet h j := by
  induction h with
  | nil => rfl
  | cons e t ih =>
    obtain ⟨k, d⟩ := e
    by_cases he : k = i
    · have hkj : k ≠ j := by rw [he]; exact fun hh => hij hh.symm
      simp [heapGet, heapModify, List.find?, he, hkj, Ne.symm hij, hij]
      simpa [heapGet, heapModify] using ih
    · by_cases hej : k = j
      · subst hej
        simp [heapGet, heapModify, List.find?, he, hij]
      · simp [heapGet, heapModify, List.find?, he, hej]
        simpa [heapGet, heapModify] using ih

/-! ## Naive MCTS nodes: `src/NaiveNode.py` -/

/-- `NaiveNode` fields: statistics initialized to `n_won = 0`,
`n_visited = 1`; `children_states` is a Python `set` of node objects, which —
`NaiveNode` defining neither `__eq__` nor `__hash__` — behaves as a
collection of distinct objects; we keep the ids in insertion order. -/
structure NNodeData where
  game_obj : Board
  input_action : Option Act
  is_opponent_turn : Bool
  n_won : ℚ
  n_visited : Nat
  children_states : List Nat
  deriving DecidableEq, Repr

/-- A freshly constructed `NaiveNode(game_state, input_action, is_opponent)`. -/
def NNodeData.fresh (game_obj : Board) (input_action : Option Act)
    (is_opponent : Bool) : NNodeData :=
  { game_obj := game_obj, input_action := input_action,
    is_opponent_turn := is_opponent, n_won := 0, n_visited := 1,
    children_states := [] }

/-- `NaiveNode.add_child`: constructs a fresh `NaiveNode` with the opposite
turn owner and adds it to the `children_states` set — unconditionally: no
check against an existing child for the same action. -/
def naiveAddChild (h : Heap NNodeData) (parent : Nat) (game_obj : Board)
    (input_action : Act) : Heap NNodeData :=
  match heapGet h parent with
  | none => h
  | some pd =>
    let (h1, cid) := heapAlloc h
      (NNodeData.fresh game_obj (some input_action) (!pd.is_opponent_turn))
    heapModify h1 parent (fun d => { d with children_states := d.children_states ++ [cid] })

/-- `NaiveNode.add_children`: `add_child` for each (state, action) pair in order. -/
def naiveAddChildren (h : Heap NNodeData) (parent : Nat)
    (game_objs : List Board) (input_actions : List Act) : Heap NNodeData :=
  (game_objs.zip input_actions).foldl
    (fun hh p => naiveAddChild hh parent p.1 p.2) h

/-- `NaiveNode.update_stats`: the win counter is raised by 1 for a WIN on an
agent-owned node or a LOSS on an opponent-owned node, by 0.5 otherwise
(the `else` branch, i.e. a DRAW), and the visit counter always by 1. -/
def updateStats (outcome : Outcome) (nd : NNodeData) : NNodeData :=
  let nd1 :=
    if outcome = Outcome.WIN then
      (if !nd.is_opponent_turn then { nd with n_won := nd.n_won + 1 } else nd)
    else if outcome = Outcome.LOSS then
      (if nd.is_opponent_turn then { nd with n_won := nd.n_won + 1 } else nd)
    else { nd with n_won := nd.n_won + (1 / 2 : ℚ) }
  { nd1 with n_visited := nd1.n_visited + 1 }

/-- `NaiveNode.get_value`: `n_won / n_visited`. -/
def NNodeData.get_value (nd : NNodeData) : ℚ := nd.n_won / (nd.n_visited : ℚ)

/-- `NaiveMCTS.backpropagate_outcome`: `update_stats(outcome)` on every node
object of the search path, in order. -/
def backpropagateOutcome (h : Heap NNodeData) (path : List Nat)
    (outcome : Outcome) : Heap NNodeData :=
  path.foldl (fun hh nid => heapModify hh nid (updateStats outcome)) h

/-- `NaiveMCTS.create_children_for_node`: the (state, action) pairs come from
`self.game_obj.get_next_game_states(self.mark)` — the engine's *real* game
object and the agent's own mark — not from the `node` parameter's state. -/
def createChildrenForNode (realGame : Board) (mark : String)
    (h : Heap NNodeData) (node : Nat) : Heap NNodeData :=
  let sa := getNextGameStates realGame mark
  naiveAddChildren h node sa.1 sa.2

/-! ## Sarsa value nodes

The class actually imported by `src/agents/SarsaMCTS.py` is
`agents.SarsaNode`, which is not part of `src/` (the top-level
`src/SarsaNode.py` is a stale statistics-node variant without a value field
whose `add_child` signature does not match the call sites).  The value node
is therefore modelled from the spec. -/

/-- Lookup in an action-keyed children dictionary (Python `dict`
membership / subscript on `children_states`). -/
def childLookup (cs : List (Option Act × Nat)) (a : Option Act) : Option Nat :=
  (cs.find? (fun e => e.1 = a)).map (fun e => e.2)

/-- Modelled from the spec: the Sarsa ValueNode of §3 (`agents/SarsaNode.py`
is missing from `src/`): `value` (TD value estimate, initialized by a
configurable initializer — the call sites pass `init_v = V_init(sp)`),
visit count, `turn_owner`, an action-keyed `children` map and
`origin_action`.  The visit count starts at 1 as in `src/SarsaNode.py` and
as required by the divide-by-zero remark in `ucb1_tree_policy_`. -/
structure SNodeData where
  game_obj : Board
  input_action : Option Act
  is_opponent_turn : Bool
  V : ℚ
  n_visited : Nat
  children_states : List (Option Act × Nat)
  deriving DecidableEq, Repr

/-- A freshly constructed Sarsa node. -/
def SNodeData.fresh (game_obj : Board) (v_init : ℚ) (input_action : Option Act)
    (is_opponent : Bool) : SNodeData :=
  { game_obj := game_obj, input_action := input_action,
    is_opponent_turn := is_opponent, V := v_init, n_visited := 1,
    children_states := [] }

/-- Modelled from the spec (§4.1): `add_child` "for each (state, action) pair
not already a child, constructs and attaches a child node with `turn_owner`
flipped relative to the parent; skips pairs whose action already exists as a
child (idempotent expansion)". -/
def sarsaAddChild (h : Heap SNodeData) (parent : Nat) (game_obj : Board)
    (v_init : ℚ) (input_action : Option Act) : Heap SNodeData :=
  match heapGet h parent with
  | none => h
  | some pd =>
    match childLookup pd.children_states input_action with
    | some _ => h
    | none =>
      let al := heapAlloc h
        (SNodeData.fresh game_obj v_init input_action (!pd.is_opponent_turn))
      heapModify al.1 parent
        (fun d => { d with children_states := d.children_states ++ [(input_action, al.2)] })

/-- Modelled from the spec (§4.1): `add_children(node, states, actions)`
applies `add_child` to each (state, action) pair in order. -/
def sarsaAddChildren (h : Heap SNodeData) (parent : Nat)
    (game_objs : List Board) (input_actions : List (Option Act))
    (v_init : ℚ) : Heap SNodeData :=
  (game_objs.zip input_actions).foldl
    (fun hh pr => sarsaAddChild hh parent pr.1 v_init pr.2) h

/-! ### Heap well-formedness: ids are allocated consecutively -/

/-- Every heap the embedded code builds allocates ids `0, 1, 2, …` in order. -/
def HeapWF (h : Heap δ) : Prop := h.map Prod.fst = List.range h.length

theorem HeapWF_modify (h : Heap δ) (i : Nat) (f : δ → δ) (hwf : HeapWF h) :
    HeapWF (heapModify h i f) := by
  have hmap : (heapModify h i f).map Prod.fst = h.map Prod.fst := by
    simp only [heapModify, List.map_map]
    apply List.map_congr_left
    intro e _
    by_cases he : e.1 = i <;> simp [he]
  have hlen : (heapModify h i f).length = h.length := by simp [heapModify]
  rw [HeapWF, hmap, hlen]; exact hwf

theorem HeapWF_append_fresh (h : Heap δ) (d : δ) (hwf : HeapWF h) :
    HeapWF (h ++ [(heapFresh h, d)]) := by
  rw [HeapWF] at hwf ⊢
  simp [heapFresh, List.range_succ, hwf]

theorem heapGet_append_left (h t : Heap δ) (i : Nat) (d : δ)
    (hget : heapGet h i = some d) : heapGet (h ++ t) i = some d := by
  induction h with
  | nil => simp [heapGet] at hget
  | cons e tl ih =>
    rw [heapGet] at hget ⊢
    cases hd : decide (e.1 = i) with
    | true => simp only [List.find?, hd] at hget ⊢; exact hget
    | false => simp only [List.find?, hd] at hget ⊢; exact ih hget

theorem heapGet_none_of_wf_ge (h : Heap δ) (i : Nat) (hwf : HeapWF h)
    (hi : h.length ≤ i) : heapGet h i = none := by
  have hfind : List.find? (fun e => decide (e.1 = i)) h = none := by
    rw [List.find?_eq_none]
    intro e he
    have h2 : e.1 ∈ h.map Prod.fst := List.mem_map_of_mem Prod.fst he
    rw [hwf, List.mem_range] at h2
    simp only [decide_eq_true_eq]
    omega
  simp [heapGet, hfind]

theorem heapGet_some_lt (h : Heap δ) (i : Nat) (d : δ) (hwf : HeapWF h)
    (hget : heapGet h i = some d) : i < h.length := by
  by_contra hc
  rw [heapGet_none_of_wf_ge h i hwf (by omega)] at hget
  exact Option.noConfusion hget

/-! ## Claim C7: idempotence of child expansion -/

theorem childLookup_append_some (cs t : List (Option Act × Nat))
    (a : Option Act) (c : Nat) (hc : childLookup cs a = some c) :
    childLookup (cs ++ t) a = some c := by
  induction cs with
  | nil => simp [childLookup] at hc
  | cons e tl ih =>
    rw [childLookup] at hc ⊢
    cases hd : decide (e.1 = a) with
    | true => simp only [List.find?, hd] at hc ⊢; exact hc
    | false => simp only [List.find?, hd] at hc ⊢; exact ih hc

theorem childLookup_append_key (cs : List (Option Act × Nat))
    (a : Option Act) (i : Nat) :
    (childLookup (cs ++ [(a, i)]) a).isSome := by
  induction cs with
  | nil => simp [childLookup, List.find?]
  | cons e tl ih =>
    rw [childLookup]
    cases hd : decide (e.1 = a) with
    | true => simp only [List.find?, hd]; rfl
    | false => simpa only [List.find?, hd, childLookup] using ih

/-- A node of the heap already holds a child for the given action. -/
def childPresent (h : Heap SNodeData) (p : Nat) (a : Option Act) : Prop :=
  ∃ pd, heapGet h p = some pd ∧ (childLookup pd.children_states a).isSome

theorem sarsaAddChild_of_present (h : Heap SNodeData) (p : Nat) (g : Board)
    (v : ℚ) (a : Option Act) (hpres : childPresent h p a) :
    sarsaAddChild h p g v a = h := by
  obtain ⟨pd, hpd, hsome⟩ := hpres
  obtain ⟨c, hc⟩ := Option.isSome_iff_exists.mp hsome
  simp [sarsaAddChild, hpd, hc]

theorem sarsaAddChild_parent_some (h : Heap SNodeData) (p q : Nat)
    (g : Board) (v : ℚ) (a : Option Act) (pd : SNodeData)
    (hpd : heapGet h p = some pd) :
    ∃ pd2, heapGet (sarsaAddChild h q g v a) p = some pd2 := by
  cases hq : heapGet h q with
  | none => exact ⟨pd, by simp only [sarsaAddChild, hq]; exact hpd⟩
  | some qd =>
    cases hc : childLookup qd.children_states a with
    | some c => exact ⟨pd, by simp only [sarsaAddChild, hq, hc]; exact hpd⟩
    | none =>
      have hleft := heapGet_append_left h
        [(heapFresh h, SNodeData.fresh g v a (!qd.is_opponent_turn))] p pd hpd
      by_cases hpq : p = q
      · subst hpq
        refine ⟨{ pd with children_states :=
          pd.children_states ++ [(a, heapFresh h)] }, ?_⟩
        have hqp : qd = pd := by
          rw [hpd] at hq; exact (Option.some.injEq _ _).mp hq.symm
        subst hqp
        simp only [sarsaAddChild, hq, hc, heapAlloc]
        rw [heapGet_modify_eq, hleft]
        rfl
      · refine ⟨pd, ?_⟩
        simp only [sarsaAddChild, hq, hc, heapAlloc]
        rw [heapGet_modify_ne _ _ _ _ hpq]
        exact hleft

theorem childPresent_addChild_self (h : Heap SNodeData) (p : Nat) (g : Board)
    (v : ℚ) (a : Option Act) (pd : SNodeData) (hpd : heapGet h p = some pd) :
    childPresent (sarsaAddChild h p g v a) p a := by
  cases hc : childLookup pd.children_states a with
  | some c =>
    rw [sarsaAddChild_of_present h p g v a ⟨pd, hpd, by rw [hc]; rfl⟩]
    exact ⟨pd, hpd, by rw [hc]; rfl⟩
  | none =>
    refine ⟨{ pd with children_states :=
      pd.children_states ++ [(a, heapFresh h)] }, ?_, ?_⟩
    · simp only [sarsaAddChild, hpd, hc, heapAlloc]
      rw [heapGet_modify_eq, heapGet_append_left h _ p pd hpd]
      rfl
    · exact childLookup_append_key pd.children_states a (heapFresh h)

theorem childPresent_addChild_mono (h : Heap SNodeData) (p q : Nat)
    (g : Board) (v : ℚ) (a a2 : Option Act)
    (hpres : childPresent h p a) :
    childPresent (sarsaAddChild h q g v a2) p a := by
  obtain ⟨pd, hpd, hsome⟩ := hpres
  cases hq : heapGet h q with
  | none => exact ⟨pd, by simp only [sarsaAddChild, hq]; exact hpd, hsome⟩
  | some qd =>
    cases hc : childLookup qd.children_states a2 with
    | some c => exact ⟨pd, by simp only [sarsaAddChild, hq, hc]; exact hpd, hsome⟩
    | none =>
      have hleft := heapGet_append_left h
        [(heapFresh h, SNodeData.fresh g v a2 (!qd.is_opponent_turn))] p pd hpd
      by_cases hpq : p = q
      · subst hpq
        have hqp : qd = pd := by
          rw [hpd] at hq; exact (Option.some.injEq _ _).mp hq.symm
        rw [hqp] at hq hc hleft
        refine ⟨{ pd with children_states :=
          pd.children_states ++ [(a2, heapFresh h)] }, ?_, ?_⟩
        · simp only [sarsaAddChild, hq, hc, heapAlloc]
          rw [heapGet_modify_eq, hleft]
          rfl
        · obtain ⟨c, hcc⟩ := Option.isSome_iff_exists.mp hsome
          simp only
          rw [childLookup_append_some _ _ a c hcc]
          rfl
      · refine ⟨pd, ?_, hsome⟩
        simp only [sarsaAddChild, hq, hc, heapAlloc]
        rw [heapGet_modify_ne _ _ _ _ hpq]
        exact hleft

theorem childPresent_fold_mono (pairs : List (Board × Option Act))
    (h : Heap SNodeData) (p q : Nat) (v : ℚ) (a : Option Act)
    (hpres : childPresent h p a) :
    childPresent (pairs.foldl (fun hh pr => sarsaAddChild hh q pr.1 v pr.2) h) p a := by
  induction pairs generalizing h with
  | nil => exact hpres
  | cons pr rest ih =>
    exact ih _ (childPresent_addChild_mono h p q pr.1 v a pr.2 hpres)

theorem sarsaFold_present (pairs : List (Board × Option Act))
    (h : Heap SNodeData) (p : Nat) (v : ℚ)
    (hsome : (heapGet h p).isSome) :
    ∀ pr ∈ pairs,
      childPresent (pairs.foldl (fun hh pr => sarsaAddChild hh p pr.1 v pr.2) h) p pr.2 := by
  induction pairs generalizing h with
  | nil => intro pr hpr; cases hpr
  | cons pr0 rest ih =>
    obtain ⟨pd, hpd⟩ := Option.isSome_iff_exists.mp hsome
    intro pr hpr
    rcases List.mem_cons.mp hpr with hh | hh
    · subst hh
      exact childPresent_fold_mono rest _ p p v pr.2
        (childPresent_addChild_self h p pr.1 v pr.2 pd hpd)
    · obtain ⟨pd2, hpd2⟩ := sarsaAddChild_parent_some h p p pr0.1 v pr0.2 pd hpd
      exact ih _ (by rw [hpd2]; rfl) pr hh

theorem sarsaFold_of_present (pairs : List (Board × Option Act))
    (h : Heap SNodeData) (p : Nat) (v : ℚ)
    (hall : ∀ pr ∈ pairs, childPresent h p pr.2) :
    pairs.foldl (fun hh pr => sarsaAddChild hh p pr.1 v pr.2) h = h := by
  induction pairs with
  | nil => rfl
  | cons pr rest ih =>
    have h1 : sarsaAddChild h p pr.1 v pr.2 = h :=
      sarsaAddChild_of_present h p pr.1 v pr.2 (hall pr (List.mem_cons_self pr rest))
    simp only [List.foldl, h1]
    exact ih (fun pr2 hpr2 => hall pr2 (List.mem_cons_of_mem pr hpr2))

theorem sarsaFold_no_parent (pairs : List (Board × Option Act))
    (h : Heap SNodeData) (p : Nat) (v : ℚ)
    (hnone : heapGet h p = none) :
    pairs.foldl (fun hh pr => sarsaAddChild hh p pr.1 v pr.2) h = h := by
  induction pairs with
  | nil => rfl
  | cons pr rest ih =>
    have h1 : sarsaAddChild h p pr.1 v pr.2 = h := by rw [sarsaAddChild, hnone]
    simp only [List.foldl, h1]
    exact ih

theorem naiveAddChild_parent (h : Heap NNodeData) (p : Nat) (g : Board)
    (a : Act) (pd : NNodeData) (hpd : heapGet h p = some pd) :
    heapGet (naiveAddChild h p g a) p =
      some { pd with children_states := pd.children_states ++ [heapFresh h] } := by
  simp only [naiveAddChild, hpd, heapAlloc]
  rw [heapGet_modify_eq, heapGet_append_left h _ p pd hpd]
  rfl

theorem naiveFold_children_length (pairs : List (Board × Act))
    (h : Heap NNodeData) (p : Nat) (pd : NNodeData)
    (hpd : heapGet h p = some pd) :
    ∃ pd2,
      heapGet (pairs.foldl (fun hh pr => naiveAddChild hh p pr.1 pr.2) h) p = some pd2 ∧
      pd2.children_states.length = pd.children_states.length + pairs.length := by
  induction pairs generalizing h pd with
  | nil => exact ⟨pd, hpd, by simp⟩
  | cons pr rest ih =>
    have h1 := naiveAddChild_parent h p pr.1 pr.2 pd hpd
    obtain ⟨pd2, hpd2, hlen⟩ := ih (naiveAddChild h p pr.1 pr.2) _ h1
    refine ⟨pd2, hpd2, ?_⟩
    simp at hlen ⊢
    omega

/-- Claim C7 (amended): Sarsa child expansion is idempotent — a second
`add_children` call with the same (state, action) pairs leaves the heap
unchanged — but Naive child expansion is not: every `NaiveNode.add_child`
call adds a fresh node object to the `children_states` set, so each
`add_children` call grows the child collection by the number of pairs and a
repeated call duplicates children. -/
theorem C7_expansion_idempotence (hS : Heap SNodeData) (pS : Nat)
    (gsS : List Board) (actsS : List (Option Act)) (v : ℚ)
    (hN : Heap NNodeData) (pN : Nat) (gsN : List Board) (actsN : List Act)
    (pd : NNodeData) (hpd : heapGet hN pN = some pd) :
    sarsaAddChildren (sarsaAddChildren hS pS gsS actsS v) pS gsS actsS v =
      sarsaAddChildren hS pS gsS actsS v ∧
    ∃ pd2,
      heapGet (naiveAddChildren hN pN gsN actsN) pN = some pd2 ∧
      pd2.children_states.length =
        pd.children_states.length + (gsN.zip actsN).length := by
  constructor
  · cases hq : heapGet hS pS with
    | none =>
      have h1 : sarsaAddChildren hS pS gsS actsS v = hS :=
        sarsaFold_no_parent (gsS.zip actsS) hS pS v hq
      rw [sarsaAddChildren, h1, ← sarsaAddChildren, h1]
    | some pd0 =>
      apply sarsaFold_of_present
      intro pr hpr
      exact sarsaFold_present (gsS.zip actsS) hS pS v (by rw [hq]; rfl) pr hpr
  · exact naiveFold_children_length (gsN.zip actsN) hN pN pd hpd

/-- Witness for the amended C7 at concrete inputs. -/
theorem C7_witness :
    (sarsaAddChildren
        (sarsaAddChildren [(0, SNodeData.fresh emptyBoard 0 none true)] 0
          [emptyBoard] [some (0, 0)] 0) 0 [emptyBoard] [some (0, 0)] 0 =
      sarsaAddChildren [(0, SNodeData.fresh emptyBoard 0 none true)] 0
        [emptyBoard] [some (0, 0)] 0) ∧
    ∃ pd2,
      heapGet (naiveAddChildren [(0, NNodeData.fresh emptyBoard none true)] 0
          [emptyBoard] [(0, 0)]) 0 = some pd2 ∧
      pd2.children_states.length = 0 + 1 := by
  have := C7_expansion_idempotence [(0, SNodeData.fresh emptyBoard 0 none true)]
    0 [emptyBoard] [some (0, 0)] 0
    [(0, NNodeData.fresh emptyBoard none true)] 0 [emptyBoard] [(0, 0)]
    (NNodeData.fresh emptyBoard none true) (by rfl)
  simpa [NNodeData.fresh] using this

/-- Counterexample to C7 as stated: for the Naive node type, invoking the
child-adding routine twice with the same single (state, action) pair yields
two children for that one action, not the same child set as one invocation. -/
theorem C7_counterexample :
    (heapGet (naiveAddChildren
        (naiveAddChildren [(0, NNodeData.fresh emptyBoard none true)] 0
          [emptyBoard] [(0, 0)]) 0 [emptyBoard] [(0, 0)]) 0).map
      (fun d => d.children_states.length) = some 2 ∧
    (heapGet (naiveAddChildren [(0, NNodeData.fresh emptyBoard none true)] 0
        [emptyBoard] [(0, 0)]) 0).map
      (fun d => d.children_states.length) = some 1 ∧
    naiveAddChildren
        (naiveAddChildren [(0, NNodeData.fresh emptyBoard none true)] 0
          [emptyBoard] [(0, 0)]) 0 [emptyBoard] [(0, 0)] ≠
      naiveAddChildren [(0, NNodeData.fresh emptyBoard none true)] 0
        [emptyBoard] [(0, 0)] := by
  refine ⟨by rfl, by rfl, by decide⟩

/-! ## Claims C8 / C9: move selection -/

/-- One step of the greedy `make_move` scan: take the current child whenever
its score is `>=` the best seen so far.  The accumulator `none` plays the
role of the Sarsa code's initial `max_value = -np.inf`, which every float
compares `>=` against. -/
def bestStep (score : α → ℚ) (acc : Option (ℚ × α)) (x : α) : Option (ℚ × α) :=
  match acc with
  | none => some (score x, x)
  | some (v, b) => if score x ≥ v then some (score x, x) else some (v, b)

/-- The full greedy scan over the children in enumeration order. -/
def bestFold (score : α → ℚ) (l : List α) : Option (ℚ × α) :=
  l.foldl (bestStep score) none

/-- Stated from the spec's words: "the first child encountered that is not
strictly worse than the current best — a greater-or-equal scan keeps the
last equal-best candidate in iteration order", i.e. the last element whose
score is greater than or equal to every element's score. -/
def lastGreatestBy (score : α → ℚ) (l : List α) : Option α :=
  (l.filter (fun x => l.all (fun y => decide (score y ≤ score x)))).getLast?

theorem bestFold_from_some_isSome (score : α → ℚ) (l : List α) (v : ℚ) (b : α) :
    (l.foldl (bestStep score) (some (v, b))).isSome := by
  induction l generalizing v b with
  | nil => rfl
  | cons x t ih =>
    simp only [List.foldl, bestStep]
    by_cases hc : score x ≥ v
    · simpa [hc] using ih (score x) x
    · simpa [hc] using ih v b

theorem bestFold_isSome (score : α → ℚ) (l : List α) (hl : l ≠ []) :
    (bestFold score l).isSome := by
  cases l with
  | nil => exact absurd rfl hl
  | cons x t =>
    simpa [bestFold, List.foldl, bestStep] using bestFold_from_some_isSome score t (score x) x

theorem getLast?_mem_list (l : List α) (a : α) (h : l.getLast? = some a) :
    a ∈ l :=
  List.mem_of_mem_getLast? (by rw [h]; exact Option.mem_some_iff.mpr rfl)

theorem bestFold_eq_lastGreatest (score : α → ℚ) (l : List α) :
    bestFold score l = (lastGreatestBy score l).map (fun b => (score b, b)) := by
  induction l using List.reverseRecOn with
  | nil => rfl
  | append_singleton l x ih =>
    have hfold : bestFold score (l ++ [x]) = bestStep score (bestFold score l) x := by
      simp [bestFold, List.foldl_append]
    cases hA : l.all (fun y => decide (score y ≤ score x)) with
    | true =>
      have hallx : (l ++ [x]).all (fun y => decide (score y ≤ score x)) = true := by
        rw [List.all_eq_true]
        intro z hz
        rcases List.mem_append.mp hz with hzl | hzx
        · exact List.all_eq_true.mp hA z hzl
        · rw [List.mem_singleton.mp hzx]
          simp
      have hfilter : (l ++ [x]).filter
          (fun z => (l ++ [x]).all (fun y => decide (score y ≤ score z))) =
          l.filter (fun z => (l ++ [x]).all (fun y => decide (score y ≤ score z))) ++ [x] := by
        rw [List.filter_append]
        have hx1 : List.filter
            (fun z => (l ++ [x]).all (fun y => decide (score y ≤ score z))) [x] = [x] := by
          simp only [List.filter, hallx]
        rw [hx1]
      have hRHS : lastGreatestBy score (l ++ [x]) = some x := by
        rw [lastGreatestBy, hfilter, List.getLast?_concat]
      rw [hfold, hRHS, ih]
      cases hB : lastGreatestBy score l with
      | none => rfl
      | some b =>
        have hbmemf : b ∈ l.filter
            (fun z => l.all (fun y => decide (score y ≤ score z))) :=
          getLast?_mem_list _ b hB
        have hbmem : b ∈ l := List.mem_of_mem_filter hbmemf
        have hble : score b ≤ score x := by
          have := List.all_eq_true.mp hA b hbmem
          simpa using this
        simp only [Option.map_some', bestStep]
        rw [if_pos (show score x ≥ score b from hble)]
    | false =>
      obtain ⟨y, hy, hyx⟩ : ∃ y ∈ l, ¬ score y ≤ score x := by
        have := List.all_eq_false.mp hA
        obtain ⟨y, hy, h2⟩ := this
        exact ⟨y, hy, by simpa using h2⟩
      have hxy : score x < score y := lt_of_not_ge hyx
      have hlne : l ≠ [] := by
        intro hl; subst hl; cases hy
      have hxfails : ((l ++ [x]).all (fun y => decide (score y ≤ score x))) = false := by
        rw [List.all_append, hA]
        rfl
      have hcongr : ∀ z ∈ l,
          ((l ++ [x]).all (fun y => decide (score y ≤ score z))) =
          (l.all (fun y => decide (score y ≤ score z))) := by
        intro z hz
        cases hpz : l.all (fun y => decide (score y ≤ score z)) with
        | true =>
          have hyz : score y ≤ score z := by
            have := List.all_eq_true.mp hpz y hy
            simpa using this
          have hxz : score x ≤ score z := le_of_lt (lt_of_lt_of_le hxy hyz)
          simp [List.all_append, hpz, hxz]
        | false =>
          simp [List.all_append, hpz]
      have hfilter : (l ++ [x]).filter
          (fun z => (l ++ [x]).all (fun y => decide (score y ≤ score z))) =
          l.filter (fun z => l.all (fun y => decide (score y ≤ score z))) := by
        rw [List.filter_append]
        have h1 : List.filter
            (fun z => (l ++ [x]).all (fun y => decide (score y ≤ score z))) [x] = [] := by
          simp [List.filter, hxfails]
        rw [h1, List.append_nil]
        exact List.filter_congr hcongr
      have hRHS : lastGreatestBy score (l ++ [x]) = lastGreatestBy score l := by
        rw [lastGreatestBy, hfilter, lastGreatestBy]
      rw [hfold, hRHS, ih]
      cases hB : lastGreatestBy score l with
      | none =>
        have := bestFold_isSome score l hlne
        rw [ih, hB] at this
        simp at this
      | some b =>
        have hbmemf : b ∈ l.filter
            (fun z => l.all (fun y => decide (score y ≤ score z))) :=
          getLast?_mem_list _ b hB
        have hbmem : b ∈ l := List.mem_of_mem_filter hbmemf
        have hbbest : l.all (fun y => decide (score y ≤ score b)) :=
          (List.mem_filter.mp hbmemf).2
        have hyb : score y ≤ score b := by
          have := List.all_eq_true.mp hbbest y hy
          simpa using this
        have hxb : ¬ score x ≥ score b := by
          have : score x < score b := lt_of_lt_of_le hxy hyb
          exact not_le_of_lt this
        simp only [Option.map_some', bestStep]
        rw [if_neg hxb]

/-- `NaiveMCTS.make_move`: scan `self.root.children_states` keeping a child
whenever `child.get_value() >= max_value`, starting from `max_value = 0` and
`best_child = None`; finally return `best_child.input_action` (an
`AttributeError` on `None` when no child was kept). -/
def naiveMakeMove (children : List NNodeData) : Except PyErr (Option Act) :=
  let r := children.foldl
    (fun acc c => if NNodeData.get_value c ≥ acc.1 then (NNodeData.get_value c, some c) else acc)
    ((0 : ℚ), (none : Option NNodeData))
  match r.2 with
  | none => .error PyErr.attributeErrorNoneInputAction
  | some b => .ok b.input_action

/-- `SarsaMCTS.make_move`: scan `self.root.children_states.values()` keeping
a child whenever `child.V >= max_value`, starting from `max_value = -np.inf`
and `best_child = None`; finally return `best_child.input_action`. -/
def sarsaMakeMove (children : List SNodeData) : Except PyErr (Option Act) :=
  match bestFold SNodeData.V children with
  | none => .error PyErr.attributeErrorNoneInputAction
  | some vb => .ok vb.2.input_action

theorem naiveFold_bridge_some (l : List NNodeData) (v : ℚ) (b : NNodeData) :
    l.foldl
      (fun acc c => if NNodeData.get_value c ≥ acc.1 then (NNodeData.get_value c, some c) else acc)
      (v, some b) =
    (match l.foldl (bestStep NNodeData.get_value) (some (v, b)) with
     | some p => (p.1, some p.2)
     | none => ((0 : ℚ), (none : Option NNodeData))) := by
  induction l generalizing v b with
  | nil => rfl
  | cons c t ih =>
    by_cases hc : NNodeData.get_value c ≥ v
    · simpa [List.foldl, bestStep, hc] using ih (NNodeData.get_value c) c
    · simpa [List.foldl, bestStep, hc] using ih v b

theorem naiveFold_bridge (l : List NNodeData)
    (hn : ∀ c ∈ l, 0 ≤ NNodeData.get_value c) :
    l.foldl
      (fun acc c => if NNodeData.get_value c ≥ acc.1 then (NNodeData.get_value c, some c) else acc)
      ((0 : ℚ), (none : Option NNodeData)) =
    (match bestFold NNodeData.get_value l with
     | some p => (p.1, some p.2)
     | none => ((0 : ℚ), (none : Option NNodeData))) := by
  cases l with
  | nil => rfl
  | cons c t =>
    have hc0 : NNodeData.get_value c ≥ 0 :=
      hn c (List.mem_cons_self c t)
    have h1 : (c :: t).foldl
        (fun acc c => if NNodeData.get_value c ≥ acc.1 then (NNodeData.get_value c, some c) else acc)
        ((0 : ℚ), (none : Option NNodeData)) =
        t.foldl
          (fun acc c => if NNodeData.get_value c ≥ acc.1 then (NNodeData.get_value c, some c) else acc)
          (NNodeData.get_value c, some c) := by
      simp [List.foldl, hc0]
    have h2 : bestFold NNodeData.get_value (c :: t) =
        t.foldl (bestStep NNodeData.get_value) (some (NNodeData.get_value c, c)) := by
      simp [bestFold, List.foldl, bestStep]
    rw [h1, h2, naiveFold_bridge_some]

/-- Claim C8: for a root with at least one child, `make_move()` returns the
`input_action` of the last child in enumeration order whose score
(`wins/visits` for the Naive engine, raw `value` for the Sarsa engine) is
greater than or equal to every other child's score. -/
theorem C8_make_move_last_best (cn : List NNodeData) (cs : List SNodeData)
    (hcn : cn ≠ []) (hwon : ∀ c ∈ cn, 0 ≤ c.n_won) (hcs : cs ≠ []) :
    (∃ b, lastGreatestBy NNodeData.get_value cn = some b ∧
      naiveMakeMove cn = .ok b.input_action) ∧
    (∃ b, lastGreatestBy SNodeData.V cs = some b ∧
      sarsaMakeMove cs = .ok b.input_action) := by
  constructor
  · have hn : ∀ c ∈ cn, 0 ≤ NNodeData.get_value c := by
      intro c hc
      exact div_nonneg (hwon c hc) (by positivity)
    have hsome := bestFold_isSome NNodeData.get_value cn hcn
    rw [bestFold_eq_lastGreatest] at hsome
    cases hB : lastGreatestBy NNodeData.get_value cn with
    | none => rw [hB] at hsome; simp at hsome
    | some b =>
      refine ⟨b, rfl, ?_⟩
      have hfold := naiveFold_bridge cn hn
      rw [bestFold_eq_lastGreatest, hB] at hfold
      simp only [Option.map_some'] at hfold
      simp [naiveMakeMove, hfold]
  · have hsome := bestFold_isSome SNodeData.V cs hcs
    rw [bestFold_eq_lastGreatest] at hsome
    cases hB : lastGreatestBy SNodeData.V cs with
    | none => rw [hB] at hsome; simp at hsome
    | some b =>
      refine ⟨b, rfl, ?_⟩
      simp [sarsaMakeMove, bestFold_eq_lastGreatest, hB]

/-- Witness for C8: two equal-scoring children per engine; the later child's
action is returned. -/
theorem C8_witness :
    (∃ b, lastGreatestBy NNodeData.get_value
        [{ game_obj := emptyBoard, input_action := some (0, 0),
           is_opponent_turn := false, n_won := 1, n_visited := 2,
           children_states := [] },
         { game_obj := emptyBoard, input_action := some (1, 1),
           is_opponent_turn := false, n_won := 1, n_visited := 2,
           children_states := [] }] = some b ∧
      naiveMakeMove
        [{ game_obj := emptyBoard, input_action := some (0, 0),
           is_opponent_turn := false, n_won := 1, n_visited := 2,
           children_states := [] },
         { game_obj := emptyBoard, input_action := some (1, 1),
           is_opponent_turn := false, n_won := 1, n_visited := 2,
           children_states := [] }] = .ok b.input_action) ∧
    (∃ b, lastGreatestBy SNodeData.V
        [SNodeData.fresh emptyBoard 0 (some (0, 0)) false,
         SNodeData.fresh emptyBoard 0 (some (2, 2)) false] = some b ∧
      sarsaMakeMove
        [SNodeData.fresh emptyBoard 0 (some (0, 0)) false,
         SNodeData.fresh emptyBoard 0 (some (2, 2)) false] = .ok b.input_action) :=
  C8_make_move_last_best _ _ (by decide) (by decide) (by decide)

/-- Counterexample to C9 as stated: with no children, both engines fail with
Python's generic none-attribute error, not with the clearly named
no-children-available condition the claim requires. -/
theorem C9_counterexample :
    naiveMakeMove [] = .error PyErr.attributeErrorNoneInputAction ∧
    sarsaMakeMove [] = .error PyErr.attributeErrorNoneInputAction ∧
    PyErr.attributeErrorNoneInputAction ≠ PyErr.noChildrenAvailable :=
  ⟨rfl, rfl, by decide⟩

/-- Claim C9 (amended): with no children, `make_move()` does fail rather
than return a default, but the failure is the untyped Python
`AttributeError` from `best_child.input_action` with `best_child = None`,
not a clearly named no-children-available condition. -/
theorem C9_no_children_attribute_error :
    naiveMakeMove [] = .error PyErr.attributeErrorNoneInputAction ∧
    sarsaMakeMove [] = .error PyErr.attributeErrorNoneInputAction :=
  ⟨rfl, rfl⟩

/-! ## Claim C1: which policy picks the action in `generate_episode_` -/

/-- A Python `dict` key as used by the Sarsa agent's transposition memory:
every insertion (`pre_step_setup_`, `expand_tree_`) uses `str(state)`, but
the lookup in `generate_episode_` passes the game object itself.  A
`TicTacToeBoard` instance never compares equal to a `str` (neither defines a
cross-type `__eq__`), which the two constructors capture. -/
inductive PyKey where
  | str (s : String)
  | gameObj (b : Board)
  deriving DecidableEq, Repr

/-- `dict.get(k, None)` on the transposition memory. -/
def pyGet (mem : List (PyKey × Nat)) (k : PyKey) : Option Nat :=
  (mem.find? (fun e => e.1 = k)).map (fun e => e.2)

/-- `dict[k] = v`: Python inserts at the end (or overwrites; the embedded
code only inserts after a failed lookup, so appending is faithful). -/
def pySet (mem : List (PyKey × Nat)) (k : PyKey) (v : Nat) : List (PyKey × Nat) :=
  mem ++ [(k, v)]

/-- Which branch of `generate_episode_`'s action choice runs. -/
inductive PolicyChoice where
  | treePolicy
  | playoutPolicy
  deriving DecidableEq, Repr

/-- The branch condition of `generate_episode_`:
`if self.memory.get(s, None) != None` — the lookup key is the game object
`s` itself, not its canonical string `str(s)`. -/
def generateEpisodeChoice (mem : List (PyKey × Nat)) (s : Board) : PolicyChoice :=
  if (pyGet mem (PyKey.gameObj s)).isSome then PolicyChoice.treePolicy
  else PolicyChoice.playoutPolicy

/-- Helper: when every memory key is a string key (which every insertion in
the code guarantees), the object-keyed lookup of `generate_episode_` always
misses and the playout policy is chosen. -/
theorem generateEpisodeChoice_always_playout (mem : List (PyKey × Nat))
    (s : Board) (hstr : ∀ e ∈ mem, ∃ str, e.1 = PyKey.str str) :
    generateEpisodeChoice mem s = PolicyChoice.playoutPolicy := by
  have hfind : mem.find? (fun e => e.1 = PyKey.gameObj s) = none := by
    rw [List.find?_eq_none]
    intro e he
    obtain ⟨str, hstr2⟩ := hstr e he
    simp [hstr2]
  rw [generateEpisodeChoice, pyGet, hfind]
  rfl

/-- Claim C1 (refuting evaluation): with the root's canonical key present in
the transposition memory — exactly the situation after `pre_step_setup_` —
the episode generator still chooses the playout policy, because its lookup
uses the game object itself instead of the canonical key; the claimed
"tree policy iff the canonical key is a key of the memory" is false. -/
theorem C1_memorized_root_still_playout :
    pyGet [(PyKey.str (prettyBoardStr emptyBoard), 0)]
        (PyKey.str (prettyBoardStr emptyBoard)) = some 0 ∧
    generateEpisodeChoice [(PyKey.str (prettyBoardStr emptyBoard), 0)]
        emptyBoard = PolicyChoice.playoutPolicy := by
  constructor
  · rw [pyGet]
    simp [List.find?]
  · exact generateEpisodeChoice_always_playout _ _
      (fun e he => ⟨prettyBoardStr emptyBoard, by
        rcases List.mem_singleton.mp he with h
        rw [h]⟩)

/-! ## Claim C2: Naive expansion uses the engine's real state -/

/-- Claim C2 (refuting evaluation): the board after one X move at (0,0) has
8 legal actions, yet expanding a leaf carrying that board while the engine's
real game object is still the empty board attaches 9 children — one per
legal action of the *real* state — and the first attached child's state is
the empty board plus one agent mark, not a successor of the leaf's state. -/
theorem C2_expansion_real_state_eval :
    (getAllNextActions [[1, -1, -1], [-1, -1, -1], [-1, -1, -1]]).length = 8 ∧
    (heapGet (createChildrenForNode emptyBoard "X"
        [(0, NNodeData.fresh [[1, -1, -1], [-1, -1, -1], [-1, -1, -1]] none false)] 0) 0).map
      (fun d => d.children_states.length) = some 9 ∧
    (heapGet (createChildrenForNode emptyBoard "X"
        [(0, NNodeData.fresh [[1, -1, -1], [-1, -1, -1], [-1, -1, -1]] none false)] 0) 1).map
      (fun d => d.game_obj) = some [[1, -1, -1], [-1, -1, -1], [-1, -1, -1]] := by
  refine ⟨rfl, rfl, rfl⟩

/-! ## Claim C10: determinism and the children-set enumeration order -/

/-- `NaiveMCTS.determine_playout_node`:
`random.choice(list(parent_node.children_states))`.  The seed determines the
chosen index; the list being indexed is the enumeration of a Python `set` of
identity-hashed node objects, whose order the seed does *not* determine, so
the enumeration is an explicit input here. -/
def determinePlayoutNode (enumeration : List Nat) (randIndex : Nat) : Option Nat :=
  enumeration[randIndex]?

/-- One playout-pick plus backpropagation over the search path
`[root, chosen child]`, the part of a `step()` iteration the chosen child
feeds into. -/
def playoutIteration (h : Heap NNodeData) (root : Nat) (enumeration : List Nat)
    (randIndex : Nat) (o : Outcome) : Option (Heap NNodeData) :=
  match determinePlayoutNode enumeration randIndex with
  | none => none
  | some c => some (backpropagateOutcome h [root, c] o)

/-- A run of playout iterations for one engine instance: `enumOf` is how
this instance happens to enumerate a children set, `script` the
seed-determined random indices and playout outcomes. -/
def runPlayoutIters (enumOf : List Nat → List Nat)
    (script : List (Nat × Outcome)) (root : Nat) (h : Heap NNodeData) :
    Option (Heap NNodeData) :=
  match script with
  | [] => some h
  | (idx, o) :: rest =>
    match heapGet h root with
    | none => none
    | some rd =>
      match playoutIteration h root (enumOf rd.children_states) idx o with
      | none => none
      | some h2 => runPlayoutIters enumOf rest root h2

/-- Claim C10 (amended): two instances produce identical trees when, in
addition to the shared seed (the script of random indices) and step
sequence, they enumerate every children set in the same order; the seed
alone does not fix that order, since `determine_playout_node` draws from
`list(...)` of a Python set of identity-hashed node objects. -/
theorem C10_determinism_given_enumeration (e1 e2 : List Nat → List Nat)
    (script : List (Nat × Outcome)) (root : Nat) (h : Heap NNodeData)
    (hee : ∀ l, e1 l = e2 l) :
    runPlayoutIters e1 script root h = runPlayoutIters e2 script root h := by
  have he : e1 = e2 := funext hee
  rw [he]

/-- Witness for the amended C10. -/
theorem C10_witness :
    runPlayoutIters id [(0, Outcome.WIN)] 0
        [(0, { game_obj := emptyBoard, input_action := none,
               is_opponent_turn := true, n_won := 0, n_visited := 1,
               children_states := [1, 2] }),
         (1, NNodeData.fresh emptyBoard (some (0, 0)) false),
         (2, NNodeData.fresh emptyBoard (some (1, 1)) false)] =
      runPlayoutIters id [(0, Outcome.WIN)] 0
        [(0, { game_obj := emptyBoard, input_action := none,
               is_opponent_turn := true, n_won := 0, n_visited := 1,
               children_states := [1, 2] }),
         (1, NNodeData.fresh emptyBoard (some (0, 0)) false),
         (2, NNodeData.fresh emptyBoard (some (1, 1)) false)] :=
  C10_determinism_given_enumeration id id [(0, Outcome.WIN)] 0 _ (fun _ => rfl)

/-- Counterexample to C10 as stated: with the same heap, the same seed-drawn
index and the same playout outcome, two enumeration orders of the *same*
children set (a permutation, as two instances' identity-hashed Python sets
generally produce) yield different trees: the iteration visits child 1 in
one run and child 2 in the other. -/
theorem C10_counterexample :
    ([1, 2] : List Nat).Perm [2, 1] ∧
    playoutIteration
        [(0, { game_obj := emptyBoard, input_action := none,
               is_opponent_turn := true, n_won := 0, n_visited := 1,
               children_states := [1, 2] }),
         (1, NNodeData.fresh emptyBoard (some (0, 0)) false),
         (2, NNodeData.fresh emptyBoard (some (1, 1)) false)] 0 [1, 2] 0 Outcome.WIN ≠
      playoutIteration
        [(0, { game_obj := emptyBoard, input_action := none,
               is_opponent_turn := true, n_won := 0, n_visited := 1,
               children_states := [1, 2] }),
         (1, NNodeData.fresh emptyBoard (some (0, 0)) false),
         (2, NNodeData.fresh emptyBoard (some (1, 1)) false)] 0 [2, 1] 0 Outcome.WIN := by
  refine ⟨by decide, ?_⟩
  intro heq
  have h1 : (playoutIteration
      [(0, { game_obj := emptyBoard, input_action := none,
             is_opponent_turn := true, n_won := 0, n_visited := 1,
             children_states := [1, 2] }),
       (1, NNodeData.fresh emptyBoard (some (0, 0)) false),
       (2, NNodeData.fresh emptyBoard (some (1, 1)) false)] 0 [1, 2] 0 Outcome.WIN).map
      (fun hh => (heapGet hh 1).map (fun d => d.n_visited)) = some (some 2) := rfl
  have h2 : (playoutIteration
      [(0, { game_obj := emptyBoard, input_action := none,
             is_opponent_turn := true, n_won := 0, n_visited := 1,
             children_states := [1, 2] }),
       (1, NNodeData.fresh emptyBoard (some (0, 0)) false),
       (2, NNodeData.fresh emptyBoard (some (1, 1)) false)] 0 [2, 1] 0 Outcome.WIN).map
      (fun hh => (heapGet hh 1).map (fun d => d.n_visited)) = some (some 1) := rfl
  rw [heq] at h1
  rw [h1] at h2
  exact absurd h2 (by decide)

/-! ## Sarsa episodes, `expand_tree_` and `backup_td_errors_` -/

/-- One `(s, a, r, s')` tuple of `self.episode`; the synthetic leading tuple
is `(None, None, 0, root-state)`, hence the `Option`s. -/
structure STrans where
  s : Option Board
  a : Option Act
  r : ℚ
  sp : Board
  deriving DecidableEq, Repr

/-- `self.V_init = lambda _ : 0`. -/
def V_init : Board → ℚ := fun _ => 0

/-- `self.V_playout = self.V_init`. -/
def V_playout : Board → ℚ := V_init

/-- The loop body of `SarsaMCTS.expand_tree_` over `self.episode[1:]`:
look up the predecessor (assert it is memorized), attach the successor as a
child under the taken action if that slot is empty, and if the successor is
not yet memorized insert it into memory and stop scanning. -/
def expandTreeGo (h : Heap SNodeData) (mem : List (PyKey × Nat)) :
    List STrans → Except PyErr (Heap SNodeData × List (PyKey × Nat))
  | [] => .ok (h, mem)
  | t :: rest =>
    match pyGet mem (PyKey.str (pyStrOpt t.s)) with
    | none => .error PyErr.assertionError
    | some pid =>
      match heapGet h pid with
      | none => .error PyErr.keyError
      | some pd =>
        let h1 := if (childLookup pd.children_states t.a).isNone
                  then sarsaAddChild h pid t.sp (V_init t.sp) t.a
                  else h
        match heapGet h1 pid with
        | none => .error PyErr.keyError
        | some pd1 =>
          match childLookup pd1.children_states t.a with
          | none => .error PyErr.keyError
          | some cid =>
            if (pyGet mem (PyKey.str (pyStrOpt (some t.sp)))).isNone then
              .ok (h1, pySet mem (PyKey.str (pyStrOpt (some t.sp))) cid)
            else
              expandTreeGo h1 mem rest

/-- `SarsaMCTS.expand_tree_`: scan `self.episode[1:]`. -/
def expandTree (ep : List STrans) (h : Heap SNodeData)
    (mem : List (PyKey × Nat)) : Except PyErr (Heap SNodeData × List (PyKey × Nat)) :=
  expandTreeGo h mem (ep.drop 1)

/-- The first scanned transition whose successor state is not yet memorized. -/
def firstUnmemorized (l : List STrans) (mem : List (PyKey × Nat)) : Option STrans :=
  l.find? (fun t => (pyGet mem (PyKey.str (pyStrOpt (some t.sp)))).isNone)

theorem pyGet_some_mem (mem : List (PyKey × Nat)) (k : PyKey) (v : Nat)
    (hget : pyGet mem k = some v) : ∃ e ∈ mem, e.2 = v := by
  rw [pyGet] at hget
  cases hfind : mem.find? (fun e => e.1 = k) with
  | none => rw [hfind] at hget; cases hget
  | some e =>
    rw [hfind] at hget
    refine ⟨e, List.mem_of_find?_eq_some hfind, ?_⟩
    simpa using hget

theorem sarsaAddChild_isSome_mono (h : Heap SNodeData) (p q : Nat)
    (g : Board) (v : ℚ) (a : Option Act)
    (hq : (heapGet h q).isSome) : (heapGet (sarsaAddChild h p g v a) q).isSome := by
  obtain ⟨d, hd⟩ := Option.isSome_iff_exists.mp hq
  obtain ⟨d2, hd2⟩ := sarsaAddChild_parent_some h q p g v a d hd
  rw [hd2]
  rfl

/-- Claim C6: for an episode whose transitions chain correctly and whose
root state is memorized, `expand_tree_` never fails its predecessor
assertion, and it inserts at most one new key into the transposition
memory: the successor of the first scanned transition whose successor is
not yet memorized, bound to the child of its predecessor's node under the
taken action. -/
theorem expandTreeGo_spec (l : List STrans) (mem : List (PyKey × Nat))
    (h : Heap SNodeData)
    (hwf : ∀ e ∈ mem, (heapGet h e.2).isSome)
    (hchain : List.Chain' (fun t u => u.s = some t.sp) l)
    (hroot : ∀ t, l.head? = some t →
      (pyGet mem (PyKey.str (pyStrOpt t.s))).isSome) :
    ∃ h2 mem2, expandTreeGo h mem l = .ok (h2, mem2) ∧
      (match firstUnmemorized l mem with
       | none => mem2 = mem
       | some t =>
         ∃ pid pd cid,
           pyGet mem (PyKey.str (pyStrOpt t.s)) = some pid ∧
           heapGet h2 pid = some pd ∧
           childLookup pd.children_states t.a = some cid ∧
           mem2 = pySet mem (PyKey.str (pyStrOpt (some t.sp))) cid) := by
  induction l generalizing h with
  | nil =>
    exact ⟨h, mem, rfl, by rw [firstUnmemorized]; rfl⟩
  | cons t rest ih =>
    obtain ⟨hnext, hchainrest⟩ := List.chain'_cons'.mp hchain
    obtain ⟨pid, hpid⟩ := Option.isSome_iff_exists.mp (hroot t rfl)
    obtain ⟨e, hemem, he2⟩ := pyGet_some_mem mem _ pid hpid
    have hpidsome : (heapGet h pid).isSome := by
      have := hwf e hemem
      rw [he2] at this
      exact this
    obtain ⟨pd, hpd⟩ := Option.isSome_iff_exists.mp hpidsome
    have hstep : ∃ pd1 cid,
        heapGet (if (childLookup pd.children_states t.a).isNone
                 then sarsaAddChild h pid t.sp (V_init t.sp) t.a
                 else h) pid = some pd1 ∧
        childLookup pd1.children_states t.a = some cid := by
      cases hc : childLookup pd.children_states t.a with
      | some c =>
        refine ⟨pd, c, ?_, hc⟩
        simpa using hpd
      | none =>
        obtain ⟨pd1, hpd1, hsome1⟩ :=
          childPresent_addChild_self h pid t.sp (V_init t.sp) t.a pd hpd
        obtain ⟨cid, hcid⟩ := Option.isSome_iff_exists.mp hsome1
        refine ⟨pd1, cid, ?_, hcid⟩
        simpa using hpd1
    obtain ⟨pd1, cid, hpd1, hcid⟩ := hstep
    have hunfold : expandTreeGo h mem (t :: rest) =
        (if (pyGet mem (PyKey.str (pyStrOpt (some t.sp)))).isNone then
          .ok ((if (childLookup pd.children_states t.a).isNone
                then sarsaAddChild h pid t.sp (V_init t.sp) t.a
                else h),
            pySet mem (PyKey.str (pyStrOpt (some t.sp))) cid)
        else
          expandTreeGo
            (if (childLookup pd.children_states t.a).isNone
             then sarsaAddChild h pid t.sp (V_init t.sp) t.a
             else h) mem rest) := by
      rw [expandTreeGo]
      simp only [hpid, hpd, hpd1, hcid]
    by_cases hmem : (pyGet mem (PyKey.str (pyStrOpt (some t.sp)))).isNone
    · refine ⟨(if (childLookup pd.children_states t.a).isNone
             then sarsaAddChild h pid t.sp (V_init t.sp) t.a
             else h),
        pySet mem (PyKey.str (pyStrOpt (some t.sp))) cid, ?_, ?_⟩
      · rw [hunfold, if_pos hmem]
      · have hfirst : firstUnmemorized (t :: rest) mem = some t := by
          rw [firstUnmemorized]
          simp only [List.find?, hmem]
        rw [hfirst]
        exact ⟨pid, pd1, cid, hpid, hpd1, hcid, rfl⟩
    · have hmemf : (pyGet mem (PyKey.str (pyStrOpt (some t.sp)))).isNone = false := by
        cases hcase : pyGet mem (PyKey.str (pyStrOpt (some t.sp))) with
        | none => exact absurd (by rw [hcase]; rfl) hmem
        | some v => rfl
      have hwf1 : ∀ e ∈ mem,
          (heapGet (if (childLookup pd.children_states t.a).isNone
                    then sarsaAddChild h pid t.sp (V_init t.sp) t.a
                    else h) e.2).isSome := by
        intro e2 he2m
        cases hc : childLookup pd.children_states t.a with
        | some c => simpa using hwf e2 he2m
        | none =>
          simpa using
            sarsaAddChild_isSome_mono h pid e2.2 t.sp (V_init t.sp) t.a (hwf e2 he2m)
      have hrootrest : ∀ u, rest.head? = some u →
          (pyGet mem (PyKey.str (pyStrOpt u.s))).isSome := by
        intro u hu
        have husp : u.s = some t.sp := hnext u (by rw [hu]; rfl)
        rw [husp]
        cases hcase : pyGet mem (PyKey.str (pyStrOpt (some t.sp))) with
        | none => rw [hcase] at hmemf; cases hmemf
        | some v => rfl
      obtain ⟨h2, mem2, hok, hrest⟩ := ih _ hwf1 hchainrest hrootrest
      refine ⟨h2, mem2, ?_, ?_⟩
      · rw [hunfold, if_neg hmem]
        exact hok
      · have hfirst : firstUnmemorized (t :: rest) mem = firstUnmemorized rest mem := by
          rw [firstUnmemorized]
          simp only [List.find?, hmemf]
          rw [firstUnmemorized]
        rw [hfirst]
        exact hrest

/-- Claim C6: for an episode whose transitions chain correctly and whose
root state is memorized, `expand_tree_` never fails its predecessor
assertion, and it inserts at most one new key into the transposition
memory: the successor of the first scanned transition whose successor is
not yet memorized, bound to the child of its predecessor's node under the
taken action. -/
theorem C6_expand_tree_one_insertion (ep : List STrans) (h : Heap SNodeData)
    (mem : List (PyKey × Nat))
    (hwf : ∀ e ∈ mem, (heapGet h e.2).isSome)
    (hchain : List.Chain' (fun t u => u.s = some t.sp) (ep.drop 1))
    (hroot : ∀ t, (ep.drop 1).head? = some t →
      (pyGet mem (PyKey.str (pyStrOpt t.s))).isSome) :
    ∃ h2 mem2, expandTree ep h mem = .ok (h2, mem2) ∧
      (match firstUnmemorized (ep.drop 1) mem with
       | none => mem2 = mem
       | some t =>
         ∃ pid pd cid,
           pyGet mem (PyKey.str (pyStrOpt t.s)) = some pid ∧
           heapGet h2 pid = some pd ∧
           childLookup pd.children_states t.a = some cid ∧
           mem2 = pySet mem (PyKey.str (pyStrOpt (some t.sp))) cid) := by
  rw [expandTree]
  exact expandTreeGo_spec (ep.drop 1) mem h hwf hchain hroot

/-- Witness for C6: a two-transition episode from a memorized root; the
first transition's successor is fresh and becomes the single inserted key. -/
theorem C6_witness :
    ∃ h2 mem2,
      expandTree
        [{ s := none, a := none, r := 0, sp := emptyBoard },
         { s := some emptyBoard, a := some (0, 0), r := 0,
           sp := [[1, -1, -1], [-1, -1, -1], [-1, -1, -1]] }]
        [(0, SNodeData.fresh emptyBoard 0 none true)]
        [(PyKey.str (prettyBoardStr emptyBoard), 0)] = .ok (h2, mem2) ∧
      (match firstUnmemorized
          [{ s := some emptyBoard, a := some (0, 0), r := 0,
             sp := [[1, -1, -1], [-1, -1, -1], [-1, -1, -1]] }]
          [(PyKey.str (prettyBoardStr emptyBoard), 0)] with
       | none => mem2 = [(PyKey.str (prettyBoardStr emptyBoard), 0)]
       | some t =>
         ∃ pid pd cid,
           pyGet [(PyKey.str (prettyBoardStr emptyBoard), 0)]
             (PyKey.str (pyStrOpt t.s)) = some pid ∧
           heapGet h2 pid = some pd ∧
           childLookup pd.children_states t.a = some cid ∧
           mem2 = pySet [(PyKey.str (prettyBoardStr emptyBoard), 0)]
             (PyKey.str (pyStrOpt (some t.sp))) cid) :=
  C6_expand_tree_one_insertion _ _ _
    (by intro e he; rw [List.mem_singleton.mp he]; rfl)
    (by simp)
    (by intro t ht; cases ht; rfl)

/-! ## Claim C5: the TD backup loop -/

/-- The mutable state threaded through `backup_td_errors_`. -/
structure BackupState where
  td_cum : ℚ
  v_next : ℚ
  heap : Heap SNodeData
  best_return : ℚ
  worst_return : ℚ
  deriving Repr

/-- One iteration of the `backup_td_errors_` loop on a transition `(r, sp)`:
`v_current` is the memorized value of `sp` if present, else the playout
estimate; the single-step TD error and trace-decayed accumulator are
updated; when `sp` is memorized its node's visit count is incremented, its
value moved by `(1/visits)·td_cum`, and the running return bounds updated
(the worst bound with a `1e-9` nudge).  `v_next` becomes `v_current`. -/
def backupStep (gamma trace_decay : ℚ) (mem : List (PyKey × Nat))
    (st : BackupState) (t : STrans) : Except PyErr BackupState :=
  match pyGet mem (PyKey.str (pyStrOpt (some t.sp))) with
  | some nid =>
    match heapGet st.heap nid with
    | none => .error PyErr.keyError
    | some nd =>
      let v_current := nd.V
      let single_step_td := t.r + gamma * st.v_next - v_current
      let td_cum := trace_decay * gamma * st.td_cum + single_step_td
      let n := nd.n_visited + 1
      let newV := nd.V + (1 / (n : ℚ)) * td_cum
      .ok { td_cum := td_cum
            v_next := v_current
            heap := heapModify st.heap nid (fun d => { d with n_visited := n, V := newV })
            best_return := if newV ≥ st.best_return then newV else st.best_return
            worst_return := if newV ≤ st.worst_return then newV - 1 / 1000000000
                            else st.worst_return }
  | none =>
    let v_current := V_playout t.sp
    let single_step_td := t.r + gamma * st.v_next - v_current
    let td_cum := trace_decay * gamma * st.td_cum + single_step_td
    .ok { st with td_cum := td_cum, v_next := v_current }

/-- The loop of `backup_td_errors_` over an already-reversed transition list. -/
def backupGo (gamma trace_decay : ℚ) (mem : List (PyKey × Nat)) :
    List STrans → BackupState → Except PyErr BackupState
  | [], st => .ok st
  | t :: rest, st =>
    match backupStep gamma trace_decay mem st t with
    | .error e => .error e
    | .ok st2 => backupGo gamma trace_decay mem rest st2

/-- `SarsaMCTS.backup_td_errors_`: process `self.episode[::-1]` starting
from `td_cum = 0`, `v_next = 0`. -/
def backupTdErrors (gamma trace_decay : ℚ) (mem : List (PyKey × Nat))
    (ep : List STrans) (h : Heap SNodeData) (best worst : ℚ) :
    Except PyErr BackupState :=
  backupGo gamma trace_decay mem ep.reverse
    { td_cum := 0, v_next := 0, heap := h, best_return := best, worst_return := worst }

/-- Claim C5: the TD backup processes the episode in reverse, and each
iteration computes `single_step_td = r + γ·v_next − v_current` and
`td_cum = λ·γ·td_cum + single_step_td`; when the transition's successor is
memorized, the successor node's visit count is incremented, its value is
updated by `value += (1/visits)·td_cum`, `best_return` is raised to the new
value when the value is at least `best_return`, and `worst_return` is set
to the new value minus `1e-9` when the value is at most `worst_return`
(`v_next` then becomes the pre-update `v_current`). -/
theorem C5_backup_td (gamma lam : ℚ) (mem : List (PyKey × Nat))
    (ep : List STrans) (h : Heap SNodeData) (best worst : ℚ)
    (st : BackupState) (t : STrans) (nid : Nat) (nd : SNodeData)
    (hmem : pyGet mem (PyKey.str (pyStrOpt (some t.sp))) = some nid)
    (hnd : heapGet st.heap nid = some nd) :
    backupTdErrors gamma lam mem ep h best worst =
      backupGo gamma lam mem ep.reverse
        { td_cum := 0, v_next := 0, heap := h,
          best_return := best, worst_return := worst } ∧
    (backupStep gamma lam mem st t =
      .ok { td_cum := lam * gamma * st.td_cum + (t.r + gamma * st.v_next - nd.V)
            v_next := nd.V
            heap := heapModify st.heap nid (fun d =>
              { d with n_visited := nd.n_visited + 1,
                       V := nd.V + (1 / ((nd.n_visited + 1 : Nat) : ℚ)) *
                         (lam * gamma * st.td_cum + (t.r + gamma * st.v_next - nd.V)) })
            best_return :=
              if nd.V + (1 / ((nd.n_visited + 1 : Nat) : ℚ)) *
                   (lam * gamma * st.td_cum + (t.r + gamma * st.v_next - nd.V)) ≥
                 st.best_return
              then nd.V + (1 / ((nd.n_visited + 1 : Nat) : ℚ)) *
                     (lam * gamma * st.td_cum + (t.r + gamma * st.v_next - nd.V))
              else st.best_return
            worst_return :=
              if nd.V + (1 / ((nd.n_visited + 1 : Nat) : ℚ)) *
                   (lam * gamma * st.td_cum + (t.r + gamma * st.v_next - nd.V)) ≤
                 st.worst_return
              then nd.V + (1 / ((nd.n_visited + 1 : Nat) : ℚ)) *
                     (lam * gamma * st.td_cum + (t.r + gamma * st.v_next - nd.V)) -
                   1 / 1000000000
              else st.worst_return }) ∧
    (∀ (st2 : BackupState) (u : STrans),
      pyGet mem (PyKey.str (pyStrOpt (some u.sp))) = none →
      backupStep gamma lam mem st2 u =
        .ok { st2 with
              td_cum := lam * gamma * st2.td_cum +
                (u.r + gamma * st2.v_next - V_playout u.sp)
              v_next := V_playout u.sp }) := by
  refine ⟨rfl, ?_, ?_⟩
  · simp only [backupStep, hmem, hnd]
  · intro st2 u humem
    simp only [backupStep, humem]

/-- Witness for C5 at a concrete memorized transition. -/
theorem C5_witness :
    backupTdErrors (9 / 10) (1 / 2) [] [] [] 0 1 =
      backupGo (9 / 10) (1 / 2) [] [].reverse
        { td_cum := 0, v_next := 0, heap := [],
          best_return := 0, worst_return := 1 } ∧
    (backupStep (9 / 10) (1 / 2)
        [(PyKey.str (prettyBoardStr emptyBoard), 0)]
        { td_cum := 0, v_next := 0,
          heap := [(0, SNodeData.fresh emptyBoard 0 none true)],
          best_return := 0, worst_return := 1 }
        { s := none, a := none, r := 1, sp := emptyBoard } =
      .ok { td_cum := (1 / 2 : ℚ) * (9 / 10) * 0 + (1 + (9 / 10) * 0 - 0)
            v_next := 0
            heap := heapModify [(0, SNodeData.fresh emptyBoard 0 none true)] 0 (fun d =>
              { d with n_visited := 1 + 1,
                       V := 0 + (1 / (((1 : Nat) + 1 : Nat) : ℚ)) *
                         ((1 / 2 : ℚ) * (9 / 10) * 0 + (1 + (9 / 10) * 0 - 0)) })
            best_return :=
              if (0 : ℚ) + (1 / (((1 : Nat) + 1 : Nat) : ℚ)) *
                   ((1 / 2 : ℚ) * (9 / 10) * 0 + (1 + (9 / 10) * 0 - 0)) ≥ 0
              then (0 : ℚ) + (1 / (((1 : Nat) + 1 : Nat) : ℚ)) *
                     ((1 / 2 : ℚ) * (9 / 10) * 0 + (1 + (9 / 10) * 0 - 0))
              else 0
            worst_return :=
              if (0 : ℚ) + (1 / (((1 : Nat) + 1 : Nat) : ℚ)) *
                   ((1 / 2 : ℚ) * (9 / 10) * 0 + (1 + (9 / 10) * 0 - 0)) ≤ 1
              then (0 : ℚ) + (1 / (((1 : Nat) + 1 : Nat) : ℚ)) *
                     ((1 / 2 : ℚ) * (9 / 10) * 0 + (1 + (9 / 10) * 0 - 0)) -
                   1 / 1000000000
              else 1 }) ∧
    (∀ (st2 : BackupState) (u : STrans),
      pyGet [(PyKey.str (prettyBoardStr emptyBoard), 0)]
        (PyKey.str (pyStrOpt (some u.sp))) = none →
      backupStep (9 / 10) (1 / 2)
          [(PyKey.str (prettyBoardStr emptyBoard), 0)] st2 u =
        .ok { st2 with
              td_cum := (1 / 2 : ℚ) * (9 / 10) * st2.td_cum +
                (u.r + (9 / 10) * st2.v_next - V_playout u.sp)
              v_next := V_playout u.sp }) := by
  have := C5_backup_td (9 / 10) (1 / 2)
    [(PyKey.str (prettyBoardStr emptyBoard), 0)] [] [] 0 1
    { td_cum := 0, v_next := 0,
      heap := [(0, SNodeData.fresh emptyBoard 0 none true)],
      best_return := 0, worst_return := 1 }
    { s := none, a := none, r := 1, sp := emptyBoard }
    0 (SNodeData.fresh emptyBoard 0 none true) rfl rfl
  exact ⟨rfl, this.2.1, this.2.2⟩

/-! ## Claim C3: `step()` on a terminal real state is a no-op

The two `step()` methods are embedded whole.  The pieces of the bodies that
compute with floating-point transcendentals (`np.sqrt`/`np.log` in the UCB1
scans) or library randomness (`random.choice`, the playout policy, the
playout simulation) enter as oracle parameters; the terminal guard, the
memory/tree manipulation and the control flow are the source's. -/

/-- Lookup in the Naive engine's transposition memory, which is keyed by
`np.array2string` of the raw board (`NaiveMCTS` never performs an
object-keyed lookup). -/
def strGet (mem : List (String × Nat)) (k : String) : Option Nat :=
  (mem.find? (fun e => e.1 = k)).map (fun e => e.2)

/-- Insertion into the Naive memory. -/
def strSet (mem : List (String × Nat)) (k : String) (v : Nat) : List (String × Nat) :=
  mem ++ [(k, v)]

/-- The mutable state of a `NaiveMCTS` instance. -/
structure NaiveAgent where
  game_obj : Board
  mark : String
  opponent_mark : String
  heap : Heap NNodeData
  memory : List (String × Nat)
  root : Nat
  path : List Nat
  deriving Repr

/-- `NaiveMCTS.pre_step_setup_`: flush the path, locate the root for the
current real state in memory, or construct and memorize a fresh
opponent-owned root. -/
def naivePreStepSetup (ag : NaiveAgent) : NaiveAgent :=
  let key := intBoardStr ag.game_obj
  let ag1 := { ag with path := ([] : List Nat) }
  match strGet ag.memory key with
  | some rid => { ag1 with root := rid }
  | none =>
    let al := heapAlloc ag.heap (NNodeData.fresh ag.game_obj none true)
    { ag1 with heap := al.1, memory := strSet ag.memory key al.2, root := al.2 }

/-- `NaiveMCTS.perform_lookahead`: append the current node to the path,
stop at a leaf, else descend into the child chosen by the UCB1 scan —
abstracted by `pick` because its scores use `np.sqrt`/`np.log` floats
(`pick` returning `none` models `most_promising_node` remaining `None`,
which would make the recursive call fail). -/
def performLookahead (pick : Heap NNodeData → Nat → Option Nat) :
    Nat → Heap NNodeData → Nat → List Nat → Except PyErr (List Nat)
  | 0, _, _, _ => .error PyErr.recursionLimit
  | fuel + 1, h, nid, path =>
    match heapGet h nid with
    | none => .error PyErr.keyError
    | some nd =>
      let path1 := path ++ [nid]
      if nd.children_states.isEmpty then .ok path1
      else
        match pick h nid with
        | none => .error PyErr.keyError
        | some c => performLookahead pick fuel h c path1

/-- `NaiveMCTS.selection_`: look ahead to a leaf; if the leaf's state is
terminal return the `None` signal; otherwise expand the leaf from the
engine's real game object, pick the playout child by `random.choice` over
the enumeration of the children set (`choice`, covering both the
set-enumeration order and the seed), and append it to the path. -/
def naiveSelection (pick : Heap NNodeData → Nat → Option Nat)
    (choice : List Nat → Option Nat) (fuel : Nat) (ag : NaiveAgent) :
    Except PyErr (NaiveAgent × Option Nat) :=
  match performLookahead pick fuel ag.heap ag.root [] with
  | .error e => .error e
  | .ok path =>
    match path.getLast? with
    | none => .error PyErr.indexError
    | some leaf =>
      match heapGet ag.heap leaf with
      | none => .error PyErr.keyError
      | some leafData =>
        if (isTerminalState leafData.game_obj).1 then
          .ok ({ ag with path := path }, none)
        else
          let heap2 := createChildrenForNode ag.game_obj ag.mark ag.heap leaf
          match heapGet heap2 leaf with
          | none => .error PyErr.keyError
          | some leafData2 =>
            match choice leafData2.children_states with
            | none => .error PyErr.indexError
            | some playoutNode =>
              .ok ({ ag with heap := heap2, path := path ++ [playoutNode] },
                some playoutNode)

/-- `NaiveMCTS.step`: the terminal guard, then setup, selection (with its
terminal-leaf short circuit), simulation (`sim` abstracts the random
playout from the playout node's state and turn owner) and
backpropagation. -/
def naiveStep (pick : Heap NNodeData → Nat → Option Nat)
    (choice : List Nat → Option Nat) (sim : Board → Bool → Outcome)
    (fuel : Nat) (ag : NaiveAgent) : Except PyErr NaiveAgent :=
  if (isTerminalState ag.game_obj).1 then .ok ag
  else
    let ag1 := naivePreStepSetup ag
    match naiveSelection pick choice fuel ag1 with
    | .error e => .error e
    | .ok (ag2, none) => .ok ag2
    | .ok (ag2, some pn) =>
      match heapGet ag2.heap pn with
      | none => .error PyErr.keyError
      | some pnd =>
        let outcome := sim pnd.game_obj pnd.is_opponent_turn
        .ok { ag2 with heap := backpropagateOutcome ag2.heap ag2.path outcome }

/-- The mutable state of a `SarsaMCTS` instance. -/
structure SarsaAgent where
  game_obj : Board
  mark : String
  opponent_mark : String
  gamma : ℚ
  trace_decay : ℚ
  worst_return : ℚ
  best_return : ℚ
  heap : Heap SNodeData
  memory : List (PyKey × Nat)
  root : Nat
  episode : List STrans
  deriving Repr

/-- `SarsaMCTS.pre_step_setup_`: locate or create the root for
`str(self.game_obj)` and flush the episode. -/
def sarsaPreStepSetup (ag : SarsaAgent) : SarsaAgent :=
  let key := PyKey.str (prettyBoardStr ag.game_obj)
  match pyGet ag.memory key with
  | some rid => { ag with root := rid, episode := ([] : List STrans) }
  | none =>
    let al := heapAlloc ag.heap (SNodeData.fresh ag.game_obj 0 none true)
    { ag with heap := al.1, memory := pySet ag.memory key al.2, root := al.2,
              episode := ([] : List STrans) }

/-- `SarsaMCTS.generate_episode_`: loop until the state is terminal; the
memorization test is the object-keyed lookup of C1, whose tree-policy branch
would dereference `s.game_obj` on a raw game object (an `AttributeError`);
the playout branch asks the playout policy (`pp`, abstracting
`random.choice` over the open cells) for an action, transitions with
`self.mark if is_opponent_turn else self.opponent_mark`, computes the
reward, injects the synthetic leading tuple once, and appends the
transition. -/
def generateEpisodeGo (pp : Board → Option Act) (mem : List (PyKey × Nat))
    (mark oppMark : String) :
    Nat → Board → Bool → List STrans → Except PyErr (List STrans)
  | 0, _, _, _ => .error PyErr.recursionLimit
  | fuel + 1, s, isOpp, episode =>
    if (isTerminalState s).1 then .ok episode
    else
      match generateEpisodeChoice mem s with
      | PolicyChoice.treePolicy => .error PyErr.attributeErrorGameObj
      | PolicyChoice.playoutPolicy =>
        match pp s with
        | none => .error PyErr.indexError
        | some a =>
          let sp := getNextGameState s a (if isOpp then mark else oppMark)
          let r := ((getReward sp mark : Int) : ℚ)
          let episode1 := if episode.isEmpty
                          then [({ s := none, a := none, r := 0, sp := s } : STrans)]
                          else episode
          generateEpisodeGo pp mem mark oppMark fuel sp (!isOpp)
            (episode1 ++ [{ s := some s, a := some a, r := r, sp := sp }])

/-- `SarsaMCTS.step`: the terminal guard, then setup, episode generation
(selection/simulation), tree expansion and TD backpropagation. -/
def sarsaStep (pp : Board → Option Act) (fuel : Nat) (ag : SarsaAgent) :
    Except PyErr SarsaAgent :=
  if (isTerminalState ag.game_obj).1 then .ok ag
  else
    let ag1 := sarsaPreStepSetup ag
    match heapGet ag1.heap ag1.root with
    | none => .error PyErr.keyError
    | some rootData =>
      match generateEpisodeGo pp ag1.memory ag1.mark ag1.opponent_mark fuel
          rootData.game_obj rootData.is_opponent_turn [] with
      | .error e => .error e
      | .ok ep =>
        match expandTree ep ag1.heap ag1.memory with
        | .error e => .error e
        | .ok (h2, mem2) =>
          match backupTdErrors ag1.gamma ag1.trace_decay mem2 ep h2
              ag1.best_return ag1.worst_return with
          | .error e => .error e
          | .ok st =>
            .ok { ag1 with heap := st.heap, memory := mem2, episode := ep,
                           best_return := st.best_return,
                           worst_return := st.worst_return }

/-- Claim C3: for both engines, `step()` on a terminal real game state
returns without raising and leaves the agent — transposition memory, every
node's statistics, values and children — unchanged, for every choice of the
selection/playout oracles. -/
theorem C3_terminal_step_noop (pick : Heap NNodeData → Nat → Option Nat)
    (choice : List Nat → Option Nat) (sim : Board → Bool → Outcome)
    (fuelN : Nat) (agN : NaiveAgent)
    (pp : Board → Option Act) (fuelS : Nat) (agS : SarsaAgent)
    (hN : (isTerminalState agN.game_obj).1 = true)
    (hS : (isTerminalState agS.game_obj).1 = true) :
    naiveStep pick choice sim fuelN agN = .ok agN ∧
    sarsaStep pp fuelS agS = .ok agS := by
  constructor
  · rw [naiveStep, if_pos hN]
  · rw [sarsaStep, if_pos hS]

/-- Witness for C3 on a decided board (X holds the top row). -/
theorem C3_witness :
    naiveStep (fun _ _ => none) (fun _ => none) (fun _ _ => Outcome.WIN) 0
        { game_obj := [[1, 1, 1], [0, 0, -1], [-1, -1, -1]], mark := "X",
          opponent_mark := "O", heap := [], memory := [], root := 0,
          path := [] } =
      .ok { game_obj := [[1, 1, 1], [0, 0, -1], [-1, -1, -1]], mark := "X",
            opponent_mark := "O", heap := [], memory := [], root := 0,
            path := [] } ∧
    sarsaStep (fun _ => none) 0
        { game_obj := [[1, 1, 1], [0, 0, -1], [-1, -1, -1]], mark := "X",
          opponent_mark := "O", gamma := 9 / 10, trace_decay := 1 / 2,
          worst_return := 1000000000, best_return := -1000000000,
          heap := [], memory := [], root := 0, episode := [] } =
      .ok { game_obj := [[1, 1, 1], [0, 0, -1], [-1, -1, -1]], mark := "X",
            opponent_mark := "O", gamma := 9 / 10, trace_decay := 1 / 2,
            worst_return := 1000000000, best_return := -1000000000,
            heap := [], memory := [], root := 0, episode := [] } :=
  C3_terminal_step_noop (fun _ _ => none) (fun _ => none)
    (fun _ _ => Outcome.WIN) 0 _ (fun _ => none) 0 _ (by rfl) (by rfl)

/-! ## Claim C4: Naive backpropagation -/

/-- The win credit exactly as the specification words it: 1 when
(outcome = WIN and the node is agent-owned) or (outcome = LOSS and the node
is opponent-owned), 0.5 on a DRAW, 0 otherwise.  Agent-owned means
`is_opponent_turn = false`. -/
def specWinCredit (o : Outcome) (is_opponent_turn : Bool) : ℚ :=
  if (o = Outcome.WIN ∧ is_opponent_turn = false) ∨
     (o = Outcome.LOSS ∧ is_opponent_turn = true) then 1
  else if o = Outcome.DRAW then 1 / 2
  else 0

theorem updateStats_eq_specCredit (o : Outcome) (nd : NNodeData) :
    updateStats o nd =
      { nd with n_won := nd.n_won + specWinCredit o nd.is_opponent_turn,
                n_visited := nd.n_visited + 1 } := by
  obtain ⟨g, a, turn, w, v, cs⟩ := nd
  cases o <;> cases turn <;> simp [updateStats, specWinCredit]

/-- Claim C4: after a simulation yields outcome `o`, backpropagation adds
exactly 1 to `n_visited` of every node on the recorded search path, and adds
to `n_won` exactly 1 when (o = WIN and the node is agent-owned) or (o = LOSS
and the node is opponent-owned), 0.5 when o = DRAW and 0 otherwise; nodes
off the path are untouched. -/
theorem C4_backprop_credit (h : Heap NNodeData) (path : List Nat)
    (o : Outcome) (nid : Nat) (nd : NNodeData)
    (hnodup : path.Nodup) (hget : heapGet h nid = some nd) :
    heapGet (backpropagateOutcome h path o) nid =
      some (if nid ∈ path then
              { nd with n_won := nd.n_won + specWinCredit o nd.is_opponent_turn,
                        n_visited := nd.n_visited + 1 }
            else nd) := by
  induction path generalizing h nd with
  | nil => simpa [backpropagateOutcome] using hget
  | cons p rest ih =>
    obtain ⟨hp, hrest⟩ := List.nodup_cons.mp hnodup
    have hfold : backpropagateOutcome h (p :: rest) o =
        backpropagateOutcome (heapModify h p (updateStats o)) rest o := rfl
    rw [hfold]
    by_cases hnp : nid = p
    · subst hnp
      have hget2 : heapGet (heapModify h nid (updateStats o)) nid =
          some (updateStats o nd) := by
        rw [heapGet_modify_eq, hget]; rfl
      have := ih (heapModify h nid (updateStats o)) (updateStats o nd) hrest hget2
      rw [this]
      simp [hp, updateStats_eq_specCredit]
    · have hget2 : heapGet (heapModify h p (updateStats o)) nid = some nd := by
        rw [heapGet_modify_ne h p nid (updateStats o) hnp, hget]
      have := ih (heapModify h p (updateStats o)) nd hrest hget2
      rw [this]
      simp [hnp]

/-- Witness for C4 at a concrete one-node path and a DRAW outcome. -/
theorem C4_witness :
    heapGet (backpropagateOutcome [(0, NNodeData.fresh emptyBoard none true)]
        [0] Outcome.DRAW) 0 =
      some { game_obj := emptyBoard, input_action := none,
             is_opponent_turn := true, n_won := 1 / 2, n_visited := 2,
             children_states := [] } := by
  have := C4_backprop_credit [(0, NNodeData.fresh emptyBoard none true)] [0]
    Outcome.DRAW 0 (NNodeData.fresh emptyBoard none true) (by decide) (by rfl)
  simpa [NNodeData.fresh, specWinCredit] using this

end MCTS
